import Mathlib

/-!
Shallow embedding of the bands library (bands.py), a message passing
library built from ordered weak sets of receivers, channels, a band
registry and a pluggable dispatcher.

Python object identities are modelled as natural numbers.  Garbage
collection state is modelled by an explicit liveness predicate on
identities; weak references dereference to their target only while the
target is alive.  Exceptions are modelled with Option and Except values,
and exceptions raised in the middle of a mutation are modelled by
returning the mutated state together with the raised error.
-/

set_option maxHeartbeats 1000000

namespace Bands

/-- Python exception kinds that the embedded code can raise. -/
inductive PyErr where
  | typeError
  | attributeError
deriving DecidableEq

/-- Identity of a receiver, as computed by WeakSet dot ref underscore id:
a plain callable is identified by its own object id; a bound method by
the pair of the id of its self object and the id of its function (or of
its name when it has no func attribute). -/
inductive RefId where
  | func (objId : Nat)
  | meth (selfId : Nat) (funcId : Nat)
deriving DecidableEq

/-- A Python callable as seen by the WeakSet: its object id, whether it
is method-like (has both call and self attributes), whether it carries a
func attribute, the ids of its self object, function and name, and the
capability flags that decide whether reference construction succeeds
(presence of a name attribute, weak referenceability of the object and
of its self object). -/
structure PyCallable where
  objId : Nat
  isMethod : Bool
  hasFunc : Bool
  selfId : Nat
  funcId : Nat
  nameId : Nat
  hasName : Bool
  weakreffable : Bool
  selfWeakreffable : Bool
deriving DecidableEq

/-- Model of WeakSet dot ref underscore id. -/
def refIdOf (obj : PyCallable) : RefId :=
  if obj.isMethod then
    if obj.hasFunc then .meth obj.selfId obj.funcId
    else .meth obj.selfId obj.nameId
  else .func obj.objId

/-- The three reference holders used by WeakSet dot add: StrongRef,
WeakMeth and WeakRef. -/
inductive RefKind where
  | strongRef
  | weakMeth
  | weakFunc
deriving DecidableEq

/-- One stored reference: its holder kind, the identity recorded at
insertion time (the ref underscore id attribute set by add), and the
identity whose liveness controls dereferencing (the callable itself for
WeakRef, its self object for WeakMeth; a StrongRef keeps its target
alive so its target always counts as alive). -/
structure RefCell where
  kind : RefKind
  ref_id : RefId
  targetId : Nat
deriving DecidableEq

/-- Dereference a stored reference under a liveness assignment: model of
calling the reference object inside WeakSet iteration.  The result is
the identity of the yielded callable (a reconstructed bound method has
the same ref underscore id as the inserted one), or none when the weak
target has died. -/
def derefCell (alive : Nat → Bool) (c : RefCell) : Option RefId :=
  match c.kind with
  | .strongRef => some c.ref_id
  | .weakMeth => if alive c.targetId then some c.ref_id else none
  | .weakFunc => if alive c.targetId then some c.ref_id else none

/-- Model of the WeakSet class: the two parallel lists refs and ids. -/
structure WeakSet where
  refs : List RefCell
  ids : List RefId
deriving DecidableEq

/-- Position of the first occurrence of an identity in a list: model of
the Python list index method (callers guard membership first). -/
def findIndex (rid : RefId) : List RefId → Nat
  | [] => 0
  | r :: rest => if r = rid then 0 else findIndex rid rest + 1

/-- Model of WeakSet dot add.  Mirrors the source statement order: the
identity is appended to ids first, then the reference holder is
constructed (which can raise), and only on success is the holder
appended to refs.  The first component is the raised exception, if any;
the second is the state of the set afterwards. -/
def WeakSet.add (s : WeakSet) (obj : PyCallable) (strong : Bool) :
    Option PyErr × WeakSet :=
  let rid := refIdOf obj
  if rid ∈ s.ids then (none, s)
  else
    let ids' := s.ids ++ [rid]
    if strong then
      if obj.hasName then (none, ⟨s.refs ++ [⟨.strongRef, rid, obj.objId⟩], ids'⟩)
      else (some .attributeError, ⟨s.refs, ids'⟩)
    else if obj.isMethod then
      if !obj.hasName then (some .attributeError, ⟨s.refs, ids'⟩)
      else if !obj.selfWeakreffable then (some .typeError, ⟨s.refs, ids'⟩)
      else (none, ⟨s.refs ++ [⟨.weakMeth, rid, obj.selfId⟩], ids'⟩)
    else
      if obj.weakreffable then (none, ⟨s.refs ++ [⟨.weakFunc, rid, obj.objId⟩], ids'⟩)
      else (some .typeError, ⟨s.refs, ids'⟩)

/-- Model of WeakSet dot discard: remove the entry whose identity
matches, when present; otherwise do nothing. -/
def WeakSet.discard (s : WeakSet) (obj : PyCallable) : WeakSet :=
  let rid := refIdOf obj
  if rid ∈ s.ids then
    ⟨s.refs.eraseIdx (findIndex rid s.ids), s.ids.eraseIdx (findIndex rid s.ids)⟩
  else s

/-- Model of WeakSet dot remove underscore ref, the weak reference death
callback: it receives the identity recorded at insertion time and
removes the matching entry, when still present. -/
def WeakSet.removeRef (s : WeakSet) (rid : RefId) : WeakSet :=
  if rid ∈ s.ids then
    ⟨s.refs.eraseIdx (findIndex rid s.ids), s.ids.eraseIdx (findIndex rid s.ids)⟩
  else s

/-- Model of WeakSet iteration: dereference each stored reference in
order and yield the live ones, skipping dead entries. -/
def WeakSet.iterate (s : WeakSet) (alive : Nat → Bool) : List RefId :=
  s.refs.filterMap (derefCell alive)

/-- Structural invariant of a WeakSet: the ids list is exactly the list
of identities recorded in refs, in the same order, and identities are
unique. -/
def WeakSet.WF (s : WeakSet) : Prop :=
  s.ids = s.refs.map RefCell.ref_id ∧ s.ids.Nodup

/-- Plain Python values sent to and returned from receivers. -/
inductive PyVal where
  | noneV
  | num (n : Nat)
  | str (s : String)
deriving DecidableEq

/-- A positional argument as stored by the Context constructor.  The
dispatch method of Dispatcher passes the packed args tuple and the
packed kwargs dict as two positional arguments, so the args attribute
of a Context can hold those packed objects as well as plain values. -/
inductive CtxArg where
  | plain (v : PyVal)
  | argsTuple (xs : List PyVal)
  | kwargsDict (xs : List (String × PyVal))
deriving DecidableEq

/-- An object handed to the dispatcher as a receiver.  Via Channel dot
send the items are the flattened live callables; via Band dot send the
items are the receiver group WeakSet objects themselves, which are not
callable.  A wset item carries the object id of the WeakSet object and
its stored references. -/
inductive PyItem where
  | recv (rid : RefId)
  | wset (oid : Nat) (refs : List RefCell)
deriving DecidableEq

/-- Identity of a dispatcher item as computed by ref underscore id when
the Context wraps the items in a fresh WeakSet: a WeakSet object is a
plain non-method object, so its identity is its object id. -/
def itemRefId : PyItem → RefId
  | .recv rid => rid
  | .wset oid _ => .func oid

/-- Model of the Context class: identifier, the receiver snapshot, the
positional arguments the constructor received, the keyword arguments the
constructor received, and the accumulated results. -/
structure Context where
  identifier : String
  receivers : List PyItem
  args : List CtxArg
  kwargs : List (String × PyVal)
  results : List PyVal
deriving DecidableEq

/-- Events observable during one dispatch: the before hook receiving a
Context, one receiver invocation with the arguments it was called with,
and the after hook receiving the completed Context. -/
inductive Event where
  | beforeHook (ctx : Context)
  | invoke (item : PyItem) (args : List PyVal) (kwargs : List (String × PyVal))
  | afterHook (ctx : Context)
deriving DecidableEq

/-- Behavior of the receivers: what invoking the callable with the given
identity on the given arguments returns, or which exception it raises. -/
def Eval : Type :=
  RefId → List PyVal → List (String × PyVal) → Except PyErr PyVal

/-- Model of Dispatcher dot dispatch applied to one item: a receiver
callable runs its behavior; a WeakSet group object is not callable, so
calling it raises a TypeError. -/
def callItem (ev : Eval) (args : List PyVal) (kwargs : List (String × PyVal)) :
    PyItem → Except PyErr PyVal
  | .recv rid => ev rid args kwargs
  | .wset _ _ => .error .typeError

/-- Deduplication by identity performed when the Context constructor
feeds the incoming items into a fresh WeakSet: the first item with a
given identity wins and order is preserved.  During one synchronous
dispatch the snapshotted items stay alive, so iteration of the snapshot
yields them all. -/
def dedupItems : List PyItem → List RefId → List PyItem
  | [], _ => []
  | it :: rest, seen =>
    if itemRefId it ∈ seen then dedupItems rest seen
    else it :: dedupItems rest (seen ++ [itemRefId it])

/-- The receiver loop of Dispatcher dot underscore dispatch: invoke each
item in order, collecting results; an exception aborts the loop and
propagates.  Returns the emitted invocation events together with either
the ordered results or the raised error. -/
def dispatchLoop (ev : Eval) (args : List PyVal) (kwargs : List (String × PyVal)) :
    List PyItem → List Event × Except PyErr (List PyVal)
  | [] => ([], .ok [])
  | it :: rest =>
    match callItem ev args kwargs it with
    | .error e => ([.invoke it args kwargs], .error e)
    | .ok v =>
      match dispatchLoop ev args kwargs rest with
      | (evs, .ok vs) => (.invoke it args kwargs :: evs, .ok (v :: vs))
      | (evs, .error e) => (.invoke it args kwargs :: evs, .error e)

/-- Which optional hooks the dispatcher defines. -/
structure DispatcherCfg where
  hasBefore : Bool
  hasAfter : Bool
deriving DecidableEq

/-- Model of Dispatcher dot underscore dispatch.  It builds a Context:
note that the source constructs it as Context of identifier, receivers,
args, kwargs without star unpacking, so the packed args tuple and the
packed kwargs dict arrive as the two positional arguments of the
Context constructor and land in its args attribute, while its kwargs
attribute stays empty.  Then the before hook (when defined) observes the
fresh Context, each receiver is invoked in order with the original
arguments, and the after hook (when defined) observes the completed
Context.  An exception from a receiver propagates at once. -/
def dispatchAll (cfg : DispatcherCfg) (ev : Eval) (identifier : String)
    (items : List PyItem) (args : List PyVal) (kwargs : List (String × PyVal)) :
    List Event × Except PyErr (List PyVal) :=
  let ctx0 : Context :=
    { identifier := identifier
      receivers := dedupItems items []
      args := [.argsTuple args, .kwargsDict kwargs]
      kwargs := []
      results := [] }
  let bevs := if cfg.hasBefore then [Event.beforeHook ctx0] else []
  match dispatchLoop ev args kwargs ctx0.receivers with
  | (evs, .ok vs) =>
    (bevs ++ evs ++ (if cfg.hasAfter then [Event.afterHook { ctx0 with results := vs }] else []),
      .ok vs)
  | (evs, .error e) => (bevs ++ evs, .error e)

/-- Lookup in an association list (model of Python dict indexing: first
entry with the key; the lists we build keep keys unique). -/
def getA {α β : Type} [DecidableEq α] : List (α × β) → α → Option β
  | [], _ => none
  | (k, v) :: rest, a => if k = a then some v else getA rest a

/-- Lookup with a default (model of defaultdict access for reading). -/
def getD {α β : Type} [DecidableEq α] (l : List (α × β)) (a : α) (d : β) : β :=
  (getA l a).getD d

/-- Update an association list at a key (model of dict item assignment,
and of defaultdict access that materialises the entry). -/
def setA {α β : Type} [DecidableEq α] : List (α × β) → α → β → List (α × β)
  | [], a, b => [(a, b)]
  | (k, v) :: rest, a, b => if k = a then (a, b) :: rest else (k, v) :: setA rest a b

/-- Remove the entry at a key, when present (model of dict pop). -/
def removeA {α β : Type} [DecidableEq α] : List (α × β) → α → List (α × β)
  | [], _ => []
  | (k, v) :: rest, a => if k = a then rest else (k, v) :: removeA rest a

/-- The identity of the None object: the sentinel owner identity used
for unbound channels. -/
def idNone : Nat := 0

/-- Model of the Channel class: the object id of the channel, its
identifier, the identity of its parent (idNone when created without a
parent), and its receiver set.  The object id also stands in for the
identity of the receivers WeakSet that the channel owns, one per
channel. -/
structure ChannelObj where
  oid : Nat
  identifier : String
  parentId : Nat
  receivers : WeakSet
deriving DecidableEq

/-- Model of the bound property: the parent is not None. -/
def ChannelObj.bound (c : ChannelObj) : Bool :=
  c.parentId ≠ idNone

/-- Model of the Band registry: channels keyed by the pair of identifier
and parent identity, the by parent index mapping a parent identity to a
map from identifier to key, and the by identifier index mapping an
identifier to the list of keys in channel creation order.  Registered
channels are stored directly: the weak reference death of a channel is
modelled by the explicit removeChannel operation, as the weakref
callback fires exactly when the channel dies. -/
structure Band where
  channels : List ((String × Nat) × ChannelObj)
  byParent : List (Nat × List (String × (String × Nat)))
  byIdentifier : List (String × List (String × Nat))
deriving DecidableEq

def emptyBand : Band := ⟨[], [], []⟩

/-- Model of Band dot channel: get or create the channel for the pair of
identifier and parent identity, registering a new channel in all three
indices, then return the dereferenced registry entry.  The freshOid
argument supplies the object identity of a newly created channel. -/
def Band.channel (s : Band) (identifier : String) (parentId : Nat) (freshOid : Nat) :
    Option ChannelObj × Band :=
  let key := (identifier, parentId)
  let s' :=
    if (getA s.channels key).isSome then s
    else
      { channels := setA s.channels key ⟨freshOid, identifier, parentId, ⟨[], []⟩⟩
        byParent := setA s.byParent parentId
          (setA (getD s.byParent parentId []) identifier key)
        byIdentifier := setA s.byIdentifier identifier
          (getD s.byIdentifier identifier [] ++ [key]) }
  (getA s'.channels key, s')

/-- Model of Band dot remove underscore channel, the channel weakref
death callback: remove the key from the by identifier list (first
occurrence, guarded by membership), pop the identifier from the by
parent submap, and pop the key from the channels dict.  The defaultdict
accesses materialise empty entries, which setA reflects. -/
def Band.removeChannel (s : Band) (key : String × Nat) : Band :=
  let cur := getD s.byIdentifier key.1 []
  { channels := removeA s.channels key
    byParent := setA s.byParent key.2 (removeA (getD s.byParent key.2 []) key.1)
    byIdentifier := setA s.byIdentifier key.1
      (if key ∈ cur then cur.erase key else cur) }

/-- Model of Channel dot connect on a registered channel: delegate to
the add method of its receiver set and store the updated channel back in
the registry (in the source the WeakSet is mutated in place).  An
exception from add propagates to the caller; the receiver set keeps the
mutation that happened before the raise. -/
def Band.connectAt (s : Band) (key : String × Nat) (obj : PyCallable) (strong : Bool) : Band :=
  match getA s.channels key with
  | some c => { s with channels := setA s.channels key { c with receivers := (c.receivers.add obj strong).2 } }
  | none => s

/-- Model of Band dot get underscore channel underscore receivers: the
sequence of receiver groups visible to a send on the given channel.
Each group is returned together with the object id standing for the
WeakSet object that holds it.  A bound channel sees its own group, then
the group of the unbound channel with the same identifier when one is
registered; an unbound channel sees its own group, then the group of
every other registered channel with the same identifier in the order of
the by identifier list, skipping the channel itself (the source compares
object identity; here the object ids).  The none fallback of the lookup
is unreachable on consistent registries, where the source would raise on
a missing key. -/
def Band.getChannelReceivers (s : Band) (chan : ChannelObj) : List (Nat × WeakSet) :=
  if chan.bound then
    (chan.oid, chan.receivers) ::
      (match getA s.channels (chan.identifier, idNone) with
       | some anyChan => [(anyChan.oid, anyChan.receivers)]
       | none => [])
  else
    (chan.oid, chan.receivers) ::
      (getD s.byIdentifier chan.identifier []).filterMap (fun key =>
        match getA s.channels key with
        | some other => if other.oid = chan.oid then none else some (other.oid, other.receivers)
        | none => none)

/-- Model of Channel dot get underscore receivers: flatten the visible
receiver groups by iterating each group WeakSet, yielding only live
receivers. -/
def ChannelObj.getReceivers (chan : ChannelObj) (s : Band) (alive : Nat → Bool) : List RefId :=
  (s.getChannelReceivers chan).flatMap (fun g => g.2.iterate alive)

/-- Model of Channel dot send: dispatch the flattened live receivers
through the dispatcher of the band. -/
def ChannelObj.send (chan : ChannelObj) (cfg : DispatcherCfg) (alive : Nat → Bool)
    (ev : Eval) (s : Band) (args : List PyVal) (kwargs : List (String × PyVal)) :
    List Event × Except PyErr (List PyVal) :=
  dispatchAll cfg ev chan.identifier ((chan.getReceivers s alive).map PyItem.recv) args kwargs

/-- Model of Band dot send: resolve or create the channel for the
identifier and the popped parent keyword (the kwargs argument here is
the dict after that pop), then hand the receiver groups produced by get
underscore channel underscore receivers to the dispatcher without
flattening them, so each item the dispatcher sees is a receiver group
WeakSet object.  The none branch of the lookup is unreachable: the get
or create always leaves the key registered. -/
def Band.send (s : Band) (cfg : DispatcherCfg) (ev : Eval) (identifier : String)
    (parentId : Nat) (freshOid : Nat) (args : List PyVal)
    (kwargs : List (String × PyVal)) :
    (List Event × Except PyErr (List PyVal)) × Band :=
  match s.channel identifier parentId freshOid with
  | (some chan, s') =>
    (dispatchAll cfg ev identifier
      ((s'.getChannelReceivers chan).map (fun g => PyItem.wset g.1 g.2.refs)) args kwargs, s')
  | (none, s') => (([], .error .attributeError), s')

/-- Registry consistency: keys of the channels dict are unique, both
secondary indices have unique outer keys, every key recorded in either
secondary index points back to a registered channel and is shaped by its
position (first component equals the identifier it is filed under,
second component equals the parent it is filed under), the by identifier
lists hold no duplicates, and every registered key is present in both
secondary indices. -/
def consistent (s : Band) : Prop :=
  (s.channels.map Prod.fst).Nodup ∧
  (s.byIdentifier.map Prod.fst).Nodup ∧
  (s.byParent.map Prod.fst).Nodup ∧
  (∀ e ∈ s.byIdentifier, e.2.Nodup ∧
    ∀ k ∈ e.2, k.1 = e.1 ∧ (getA s.channels k).isSome = true) ∧
  (∀ e ∈ s.byParent, (e.2.map Prod.fst).Nodup ∧
    ∀ m ∈ e.2, m.2 = (m.1, e.1) ∧ (getA s.channels m.2).isSome = true) ∧
  (∀ e ∈ s.channels, e.1 ∈ getD s.byIdentifier e.1.1 [] ∧
    getA (getD s.byParent e.1.2 []) e.1.1 = some e.1)

/-- Band states reachable from the empty band through the public
registry operations: channel creation and channel removal (the weakref
death callback). -/
inductive Reachable : Band → Prop
  | init : Reachable emptyBand
  | create (i : String) (p oid : Nat) {s : Band} :
      Reachable s → Reachable (s.channel i p oid).2
  | remove (key : String × Nat) {s : Band} :
      Reachable s → Reachable (s.removeChannel key)

/-- The receiver group registered at a key, together with the identity
standing for its WeakSet object (the fallback is unreachable when every
queried key is registered). -/
def chanGroup (s : Band) (key : String × Nat) : Nat × WeakSet :=
  match getA s.channels key with
  | some c => (c.oid, c.receivers)
  | none => (0, ⟨[], []⟩)

/-- The channel registered at a key (fallback unreachable in use). -/
def chanAt (s : Band) (key : String × Nat) : ChannelObj :=
  (getA s.channels key).getD ⟨0, "", 0, ⟨[], []⟩⟩

/-- Liveness assignment under which every object is alive. -/
def allAlive : Nat → Bool := fun _ => true

/-- The one receiver of each scenario channel: three distinct plain
functions. -/
def recvU : PyCallable := ⟨100, false, false, 0, 0, 0, true, true, true⟩

def recvB1 : PyCallable := ⟨101, false, false, 0, 0, 0, true, true, true⟩

def recvB2 : PyCallable := ⟨102, false, false, 0, 0, 0, true, true, true⟩

/-- The scenario band of C2: an unbound channel U for x, then bound
channels B1 and B2 for x created in that order, each with one
receiver. -/
def scenBand : Band :=
  ((((((emptyBand.channel "x" idNone 10).2).channel "x" 1 11).2).channel "x" 2 12).2.connectAt
      ("x", idNone) recvU false).connectAt ("x", 1) recvB1 false |>.connectAt ("x", 2) recvB2 false

/-- The behavior of the three scenario receivers. -/
def scenEval : Eval := fun rid _ _ =>
  match rid with
  | .func 100 => .ok (.str "U")
  | .func 101 => .ok (.str "B1")
  | .func 102 => .ok (.str "B2")
  | _ => .ok .noneV


/-- Concrete input for C1: a band with one unbound channel for
identifier x carrying one connected receiver. -/
def bandC1 : Band :=
  ((emptyBand.channel "x" idNone 1).2).connectAt ("x", idNone)
    ⟨100, false, false, 0, 0, 0, true, true, true⟩ false


/-! Helper lemmas about lists and the WeakSet operations. -/

lemma eraseIdx_findIndex_eq_erase (rid : RefId) :
    ∀ l : List RefId, rid ∈ l → l.eraseIdx (findIndex rid l) = l.erase rid := by
  intro l
  induction l with
  | nil => intro h; cases h
  | cons a t ih =>
    intro h
    by_cases ha : a = rid
    · subst ha
      simp [findIndex, List.eraseIdx, List.erase_cons]
    · have hmem : rid ∈ t := by
        rcases List.mem_cons.mp h with h1 | h1
        · exact absurd h1.symm ha
        · exact h1
      have hne : (a == rid) = false := by
        simp [ha]
      simp [findIndex, ha, List.eraseIdx, List.erase_cons, hne, ih hmem]

lemma map_eraseIdx_comm {α β : Type} (f : α → β) :
    ∀ (l : List α) (i : Nat), (l.eraseIdx i).map f = (l.map f).eraseIdx i := by
  intro l
  induction l with
  | nil => intro i; simp
  | cons a t ih => intro i; cases i <;> simp [List.eraseIdx, ih]

/-- Shared core: add with an identity that is already present returns at
once, raising nothing and leaving the set untouched. -/
lemma add_mem_noop (s : WeakSet) (obj : PyCallable) (strong : Bool)
    (h : refIdOf obj ∈ s.ids) : s.add obj strong = (none, s) := by
  simp [WeakSet.add, h]

/-- Shared core: discard of an absent identity is the identity map. -/
lemma discard_absent_noop (s : WeakSet) (obj : PyCallable)
    (h : refIdOf obj ∉ s.ids) : s.discard obj = s := by
  simp [WeakSet.discard, h]

/-- Shared core: discard of a present identity erases exactly the
matching entry from both parallel lists. -/
lemma discard_present_spec (s : WeakSet) (obj : PyCallable)
    (hwf : s.WF) (h : refIdOf obj ∈ s.ids) :
    (s.discard obj).ids = s.ids.erase (refIdOf obj) ∧
    (s.discard obj).refs.map RefCell.ref_id = s.ids.erase (refIdOf obj) := by
  have hids : (s.discard obj).ids = s.ids.erase (refIdOf obj) := by
    simp [WeakSet.discard, h, eraseIdx_findIndex_eq_erase _ _ h]
  refine ⟨hids, ?_⟩
  have hrefs : (s.discard obj).refs = s.refs.eraseIdx (findIndex (refIdOf obj) s.ids) := by
    simp [WeakSet.discard, h]
  rw [hrefs, map_eraseIdx_comm, ← hwf.1, eraseIdx_findIndex_eq_erase _ _ h]

/-- Shared core: the removal callback with a present identity erases
exactly the matching entry from both parallel lists. -/
lemma removeRef_present_spec (s : WeakSet) (rid : RefId)
    (hwf : s.WF) (h : rid ∈ s.ids) :
    (s.removeRef rid).ids = s.ids.erase rid ∧
    (s.removeRef rid).refs.map RefCell.ref_id = s.ids.erase rid := by
  have hids : (s.removeRef rid).ids = s.ids.erase rid := by
    simp [WeakSet.removeRef, h, eraseIdx_findIndex_eq_erase _ _ h]
  refine ⟨hids, ?_⟩
  have hrefs : (s.removeRef rid).refs = s.refs.eraseIdx (findIndex rid s.ids) := by
    simp [WeakSet.removeRef, h]
  rw [hrefs, map_eraseIdx_comm, ← hwf.1, eraseIdx_findIndex_eq_erase _ _ h]

/-- Dereferencing yields the identity recorded in the cell. -/
lemma derefCell_eq_some (alive : Nat → Bool) (c : RefCell) (r : RefId)
    (h : derefCell alive c = some r) : r = c.ref_id := by
  cases hk : c.kind <;> simp [derefCell, hk] at h <;> first
    | exact h.symm
    | exact h.2.symm

/-- A weak cell whose target is dead dereferences to nothing. -/
lemma derefCell_dead (alive : Nat → Bool) (c : RefCell)
    (hk : c.kind ≠ .strongRef) (hdead : alive c.targetId = false) :
    derefCell alive c = none := by
  cases hkc : c.kind <;> simp [derefCell, hkc, hdead]
  exact absurd hkc hk

/-! Claim theorems about the WeakSet component. -/

/-- Claim C5: adding a callable whose identity is already present in the
set is a no-op that raises nothing and leaves the set unchanged,
including the case where the callable was first added weakly and is then
added again with strong set: the first registration wins and the stored
reference is never upgraded. -/
theorem add_idempotent (s : WeakSet) (obj : PyCallable) (strong : Bool)
    (h : refIdOf obj ∈ s.ids) : s.add obj strong = (none, s) :=
  add_mem_noop s obj strong h

/-- Witness for C5: a function connected weakly and then connected again
with strong set leaves the set exactly as the first registration built
it, with the stored reference still weak. -/
theorem add_idempotent_witness :
    refIdOf ⟨5, false, false, 0, 0, 0, true, true, true⟩ ∈
      ((WeakSet.add ⟨[], []⟩ ⟨5, false, false, 0, 0, 0, true, true, true⟩ false).2).ids ∧
    (((WeakSet.add ⟨[], []⟩ ⟨5, false, false, 0, 0, 0, true, true, true⟩ false).2).add
        ⟨5, false, false, 0, 0, 0, true, true, true⟩ true) =
      (none, (WeakSet.add ⟨[], []⟩ ⟨5, false, false, 0, 0, 0, true, true, true⟩ false).2) :=
  ⟨by decide,
   add_idempotent (WeakSet.add ⟨[], []⟩ ⟨5, false, false, 0, 0, 0, true, true, true⟩ false).2
     ⟨5, false, false, 0, 0, 0, true, true, true⟩ true (by decide)⟩

/-- Claim C6: connecting an already connected receiver and disconnecting
an absent receiver are silent no-ops that raise nothing, and
disconnecting a present receiver removes exactly that entry, keeping the
presence and relative order of all other entries: the surviving ids are
the erase of the old ids (a sublist), and the refs list stays aligned
with it. -/
theorem connect_disconnect_noop (s : WeakSet) (obj : PyCallable) (strong : Bool)
    (hwf : s.WF) :
    (refIdOf obj ∈ s.ids → s.add obj strong = (none, s)) ∧
    (refIdOf obj ∉ s.ids → s.discard obj = s) ∧
    (refIdOf obj ∈ s.ids →
      (s.discard obj).ids = s.ids.erase (refIdOf obj) ∧
      refIdOf obj ∉ (s.discard obj).ids ∧
      List.Sublist (s.discard obj).ids s.ids ∧
      (s.discard obj).refs.map RefCell.ref_id = (s.discard obj).ids) := by
  refine ⟨fun h => add_mem_noop s obj strong h,
          fun h => discard_absent_noop s obj h,
          fun h => ?_⟩
  obtain ⟨hids, hrefs⟩ := discard_present_spec s obj hwf h
  refine ⟨hids, ?_, ?_, ?_⟩
  · rw [hids]
    intro hmem
    exact absurd ((hwf.2.mem_erase_iff).mp hmem).1 (by simp)
  · rw [hids]; exact List.erase_sublist _ _
  · rw [hrefs, hids]

/-- Witness for C6 at a set holding two functions: re-adding the first
is a no-op, discarding an absent function is a no-op, and discarding the
first function removes exactly its entry. -/
theorem connect_disconnect_noop_witness :
    (WeakSet.WF ⟨[⟨.weakFunc, .func 5, 5⟩, ⟨.weakFunc, .func 6, 6⟩], [.func 5, .func 6]⟩) ∧
    ((WeakSet.add ⟨[⟨.weakFunc, .func 5, 5⟩, ⟨.weakFunc, .func 6, 6⟩], [.func 5, .func 6]⟩
        ⟨5, false, false, 0, 0, 0, true, true, true⟩ false) =
      (none, ⟨[⟨.weakFunc, .func 5, 5⟩, ⟨.weakFunc, .func 6, 6⟩], [.func 5, .func 6]⟩)) ∧
    ((WeakSet.discard ⟨[⟨.weakFunc, .func 5, 5⟩, ⟨.weakFunc, .func 6, 6⟩], [.func 5, .func 6]⟩
        ⟨7, false, false, 0, 0, 0, true, true, true⟩) =
      ⟨[⟨.weakFunc, .func 5, 5⟩, ⟨.weakFunc, .func 6, 6⟩], [.func 5, .func 6]⟩) ∧
    ((WeakSet.discard ⟨[⟨.weakFunc, .func 5, 5⟩, ⟨.weakFunc, .func 6, 6⟩], [.func 5, .func 6]⟩
        ⟨5, false, false, 0, 0, 0, true, true, true⟩).ids = [.func 6]) := by
  have hwf : WeakSet.WF ⟨[⟨.weakFunc, .func 5, 5⟩, ⟨.weakFunc, .func 6, 6⟩], [.func 5, .func 6]⟩ := by
    constructor <;> decide
  have h := connect_disconnect_noop
    ⟨[⟨.weakFunc, .func 5, 5⟩, ⟨.weakFunc, .func 6, 6⟩], [.func 5, .func 6]⟩
    ⟨5, false, false, 0, 0, 0, true, true, true⟩ false hwf
  have h7 := connect_disconnect_noop
    ⟨[⟨.weakFunc, .func 5, 5⟩, ⟨.weakFunc, .func 6, 6⟩], [.func 5, .func 6]⟩
    ⟨7, false, false, 0, 0, 0, true, true, true⟩ false hwf
  refine ⟨hwf, h.1 (by decide), h7.2.1 (by decide), ?_⟩
  have := (h.2.2 (by decide)).1
  rw [this]; decide

/-- Claim C9: a weakly held entry whose target has died is skipped by
iteration (hence omitted from every subsequent send without an explicit
disconnect), and the removal callback, carrying the identity computed at
insertion time, removes exactly the dead entry from both parallel
lists. -/
theorem weak_death_auto_removal (alive : Nat → Bool) (s : WeakSet) (c : RefCell)
    (hwf : s.WF) (hc : c ∈ s.refs) (hk : c.kind ≠ .strongRef)
    (hdead : alive c.targetId = false) :
    c.ref_id ∉ s.iterate alive ∧
    (s.removeRef c.ref_id).ids = s.ids.erase c.ref_id ∧
    c.ref_id ∉ (s.removeRef c.ref_id).ids ∧
    (s.removeRef c.ref_id).refs.map RefCell.ref_id = (s.removeRef c.ref_id).ids := by
  have hnodup : (s.refs.map RefCell.ref_id).Nodup := hwf.1 ▸ hwf.2
  have hmem : c.ref_id ∈ s.ids := by
    rw [hwf.1]; exact List.mem_map_of_mem _ hc
  constructor
  · intro hiter
    obtain ⟨c', hc', hder⟩ := List.mem_filterMap.mp hiter
    have heq : c.ref_id = c'.ref_id := derefCell_eq_some alive c' _ hder
    have : c' = c := List.inj_on_of_nodup_map hnodup hc' hc heq.symm
    subst this
    rw [derefCell_dead alive c' hk hdead] at hder
    cases hder
  · obtain ⟨hids, hrefs⟩ := removeRef_present_spec s c.ref_id hwf hmem
    refine ⟨hids, ?_, by rw [hrefs, hids]⟩
    rw [hids]
    intro hmem2
    exact absurd ((hwf.2.mem_erase_iff).mp hmem2).1 (by simp)

/-- Witness for C9: in a set holding a live function and a dead one,
iteration yields only the live receiver and skips the dead identity, and
the callback removes the dead entry. -/
theorem weak_death_auto_removal_witness :
    (WeakSet.WF ⟨[⟨.weakFunc, .func 5, 5⟩, ⟨.weakFunc, .func 6, 6⟩], [.func 5, .func 6]⟩) ∧
    ((⟨.weakFunc, .func 6, 6⟩ : RefCell) ∈
      ([⟨.weakFunc, .func 5, 5⟩, ⟨.weakFunc, .func 6, 6⟩] : List RefCell)) ∧
    ((fun n => n == 5) (6 : Nat) = false) ∧
    (RefId.func 6 ∉
      WeakSet.iterate ⟨[⟨.weakFunc, .func 5, 5⟩, ⟨.weakFunc, .func 6, 6⟩], [.func 5, .func 6]⟩
        (fun n => n == 5)) ∧
    ((WeakSet.removeRef ⟨[⟨.weakFunc, .func 5, 5⟩, ⟨.weakFunc, .func 6, 6⟩], [.func 5, .func 6]⟩
        (.func 6)).ids = [.func 5]) := by
  have hwf : WeakSet.WF ⟨[⟨.weakFunc, .func 5, 5⟩, ⟨.weakFunc, .func 6, 6⟩], [.func 5, .func 6]⟩ := by
    constructor <;> decide
  have h := weak_death_auto_removal (fun n => n == 5)
    ⟨[⟨.weakFunc, .func 5, 5⟩, ⟨.weakFunc, .func 6, 6⟩], [.func 5, .func 6]⟩
    ⟨.weakFunc, .func 6, 6⟩ hwf (by decide) (by decide) (by decide)
  refine ⟨hwf, by decide, by decide, h.1, ?_⟩
  rw [h.2.1]; decide

/-- Counterexample for C10 as stated: adding, with strong set, a
callable that has no name attribute raises an AttributeError, yet the
set is not left unchanged: the identity list has grown while the
reference list has not, so the two parallel lists are no longer the same
length. -/
theorem add_failure_not_atomic_cex :
    (WeakSet.add ⟨[], []⟩ ⟨7, false, false, 0, 0, 0, false, true, true⟩ true).1 =
      some .attributeError ∧
    (WeakSet.add ⟨[], []⟩ ⟨7, false, false, 0, 0, 0, false, true, true⟩ true).2 ≠
      (⟨[], []⟩ : WeakSet) ∧
    ((WeakSet.add ⟨[], []⟩ ⟨7, false, false, 0, 0, 0, false, true, true⟩ true).2).ids.length ≠
      ((WeakSet.add ⟨[], []⟩ ⟨7, false, false, 0, 0, 0, false, true, true⟩ true).2).refs.length := by
  refine ⟨by decide, by decide, by decide⟩

/-- Claim C10 as amended: add is not atomic on failure.  Whenever add
raises, the identity of the callable has already been appended to the
ids list while the refs list is unchanged, so the parallel lists are
left misaligned by one entry. -/
theorem add_failure_state (s : WeakSet) (obj : PyCallable) (strong : Bool) (e : PyErr)
    (h : (s.add obj strong).1 = some e) :
    ((s.add obj strong).2).ids = s.ids ++ [refIdOf obj] ∧
    ((s.add obj strong).2).refs = s.refs := by
  by_cases hmem : refIdOf obj ∈ s.ids
  · rw [add_mem_noop s obj strong hmem] at h
    cases h
  · cases strong <;> simp only [WeakSet.add, hmem, if_false, if_true, ite_false, ite_true] at h ⊢ <;>
      split_ifs at h ⊢ <;> simp_all

/-- Witness for the amended C10: the concrete failing add leaves the
identity appended and the refs list empty. -/
theorem add_failure_state_witness :
    ((WeakSet.add ⟨[], []⟩ ⟨7, false, false, 0, 0, 0, false, true, true⟩ true).1 =
      some PyErr.attributeError) ∧
    ((WeakSet.add ⟨[], []⟩ ⟨7, false, false, 0, 0, 0, false, true, true⟩ true).2).ids =
      [] ++ [refIdOf ⟨7, false, false, 0, 0, 0, false, true, true⟩] ∧
    ((WeakSet.add ⟨[], []⟩ ⟨7, false, false, 0, 0, 0, false, true, true⟩ true).2).refs = [] :=
  ⟨by decide,
   add_failure_state ⟨[], []⟩ ⟨7, false, false, 0, 0, 0, false, true, true⟩ true
     .attributeError (by decide)⟩

/-! Helper lemmas about the dispatcher. -/

/-- When the incoming items carry pairwise distinct identities and none
of them was seen already, the Context snapshot keeps them all, in
order. -/
lemma dedupItems_of_nodup :
    ∀ (l : List PyItem) (seen : List RefId),
      (l.map itemRefId).Nodup → (∀ it ∈ l, itemRefId it ∉ seen) →
      dedupItems l seen = l := by
  intro l
  induction l with
  | nil => intro seen _ _; rfl
  | cons it rest ih =>
    intro seen h1 h2
    have hnotseen : itemRefId it ∉ seen := h2 it (List.mem_cons_self it rest)
    have h1' : (rest.map itemRefId).Nodup := (List.nodup_cons.mp h1).2
    have hhead : itemRefId it ∉ rest.map itemRefId := (List.nodup_cons.mp h1).1
    have h2' : ∀ it' ∈ rest, itemRefId it' ∉ seen ++ [itemRefId it] := by
      intro it' hit' hmem
      rcases List.mem_append.mp hmem with hs | hs
      · exact h2 it' (List.mem_cons_of_mem _ hit') hs
      · have : itemRefId it' = itemRefId it := by simpa using hs
        exact hhead (this ▸ List.mem_map_of_mem itemRefId hit')
    simp [dedupItems, hnotseen, ih _ h1' h2']

/-- The receiver loop up to the first failing item: every earlier item
is invoked and succeeds, the failing item is invoked, the loop stops
there with the error, and nothing after the failing item is invoked. -/
lemma dispatchLoop_error (ev : Eval) (args : List PyVal) (kwargs : List (String × PyVal))
    (bad : PyItem) (post : List PyItem) (e : PyErr)
    (hbad : callItem ev args kwargs bad = .error e) :
    ∀ pre : List PyItem, (∀ it ∈ pre, ∃ v, callItem ev args kwargs it = .ok v) →
      dispatchLoop ev args kwargs (pre ++ bad :: post) =
        (pre.map (fun it => .invoke it args kwargs) ++ [.invoke bad args kwargs], .error e) := by
  intro pre
  induction pre with
  | nil => intro _; simp [dispatchLoop, hbad]
  | cons it rest ih =>
    intro hpre
    obtain ⟨v, hv⟩ := hpre it (List.mem_cons_self it rest)
    have hrest := ih (fun it' hit' => hpre it' (List.mem_cons_of_mem _ hit'))
    simp [dispatchLoop, hv, hrest]

/-! Claim theorems about the dispatcher. -/

/-- Claim C7: when a receiver raises, the exception is not caught: the
dispatch stops at the failing receiver with the error (no truncated result
list is returned) and the receivers after it are never invoked, as the
event trace shows; the after hook does not run either. -/
theorem receiver_error_aborts (cfg : DispatcherCfg) (ev : Eval) (identifier : String)
    (pre post : List RefId) (bad : RefId) (args : List PyVal)
    (kwargs : List (String × PyVal)) (e : PyErr)
    (hnd : (pre ++ bad :: post).Nodup)
    (hpre : ∀ r ∈ pre, ∃ v, ev r args kwargs = .ok v)
    (hbad : ev bad args kwargs = .error e) :
    dispatchAll cfg ev identifier ((pre ++ bad :: post).map PyItem.recv) args kwargs =
      ((if cfg.hasBefore then
          [Event.beforeHook
            { identifier := identifier
              receivers := (pre ++ bad :: post).map PyItem.recv
              args := [.argsTuple args, .kwargsDict kwargs]
              kwargs := []
              results := [] }]
        else []) ++
        (pre.map (fun r => Event.invoke (.recv r) args kwargs) ++
          [Event.invoke (.recv bad) args kwargs]),
       .error e) := by
  have hmapid : ((pre ++ bad :: post).map PyItem.recv).map itemRefId = pre ++ bad :: post := by
    rw [List.map_map]
    have : itemRefId ∘ PyItem.recv = id := by
      funext r; rfl
    rw [this, List.map_id]
  have hdedup : dedupItems ((pre ++ bad :: post).map PyItem.recv) [] =
      (pre ++ bad :: post).map PyItem.recv := by
    refine dedupItems_of_nodup _ _ ?_ ?_
    · rw [hmapid]; exact hnd
    · intro it _ hmem; simp at hmem
  have hsplit : (pre ++ bad :: post).map PyItem.recv =
      pre.map PyItem.recv ++ PyItem.recv bad :: post.map PyItem.recv := by
    simp
  have hloop := dispatchLoop_error ev args kwargs (PyItem.recv bad) (post.map PyItem.recv) e
    (by simpa [callItem] using hbad) (pre.map PyItem.recv)
    (by
      intro it hit
      obtain ⟨r, hr, hrit⟩ := List.mem_map.mp hit
      obtain ⟨v, hv⟩ := hpre r hr
      exact ⟨v, by simpa [← hrit, callItem] using hv⟩)
  simp only [dispatchAll, hdedup]
  rw [hsplit, hloop]
  simp [List.map_map]

/-- Witness for C7: with a dispatcher without hooks, a failing receiver
followed by another receiver produces the error and a trace where the
later receiver is never invoked. -/
theorem receiver_error_aborts_witness :
    dispatchAll ⟨false, false⟩
      (fun rid _ _ => if rid = .func 2 then .error .typeError else .ok (.str "v"))
      "x" (([] ++ RefId.func 2 :: [RefId.func 3]).map PyItem.recv) [] [] =
      ((if (⟨false, false⟩ : DispatcherCfg).hasBefore then
          [Event.beforeHook
            { identifier := "x"
              receivers := ([] ++ RefId.func 2 :: [RefId.func 3]).map PyItem.recv
              args := [.argsTuple [], .kwargsDict []]
              kwargs := []
              results := [] }]
        else []) ++
        (([] : List RefId).map (fun r => Event.invoke (.recv r) [] []) ++
          [Event.invoke (.recv (.func 2)) [] []]),
       .error .typeError) :=
  receiver_error_aborts ⟨false, false⟩
    (fun rid _ _ => if rid = .func 2 then .error .typeError else .ok (.str "v"))
    "x" [] [.func 3] (.func 2) [] [] .typeError (by decide)
    (by intro r hr; cases hr) rfl

/-- Claim C4, evaluated at a failing input: the source builds the
Context without star unpacking, so the Context handed to the before hook
carries the pair made of the packed args tuple and the packed kwargs
dict in its args attribute and an empty kwargs attribute, instead of the
positional arguments and the keyword arguments themselves.  The hook
ordering itself is as claimed: before fires first on the fresh Context,
receivers are then invoked in order with the original arguments, and
after fires on the completed Context. -/
theorem context_args_misassigned :
    dispatchAll ⟨true, true⟩ (fun _ _ _ => .ok .noneV) "x"
      [PyItem.recv (.func 9)] [PyVal.num 1] [("a", PyVal.num 2)] =
      ([Event.beforeHook
          { identifier := "x"
            receivers := [PyItem.recv (.func 9)]
            args := [.argsTuple [PyVal.num 1], .kwargsDict [("a", PyVal.num 2)]]
            kwargs := []
            results := [] },
        Event.invoke (.recv (.func 9)) [PyVal.num 1] [("a", PyVal.num 2)],
        Event.afterHook
          { identifier := "x"
            receivers := [PyItem.recv (.func 9)]
            args := [.argsTuple [PyVal.num 1], .kwargsDict [("a", PyVal.num 2)]]
            kwargs := []
            results := [PyVal.noneV] }],
       .ok [PyVal.noneV]) ∧
    ([CtxArg.argsTuple [PyVal.num 1], CtxArg.kwargsDict [("a", PyVal.num 2)]] ≠
      [CtxArg.plain (PyVal.num 1)]) := by
  exact ⟨rfl, by decide⟩

/-! Helper lemmas about the association list operations. -/

variable {α β : Type} [DecidableEq α]

lemma getA_setA_self (l : List (α × β)) (a : α) (b : β) :
    getA (setA l a b) a = some b := by
  induction l with
  | nil => simp [getA, setA]
  | cons kv t ih =>
    obtain ⟨k, v⟩ := kv
    by_cases h : k = a <;> simp [getA, setA, h, ih]

lemma getA_setA_ne (l : List (α × β)) (a a' : α) (b : β) (h : a' ≠ a) :
    getA (setA l a b) a' = getA l a' := by
  induction l with
  | nil =>
    have hne : ¬a = a' := fun he => h he.symm
    simp [getA, setA, hne]
  | cons kv t ih =>
    obtain ⟨k, v⟩ := kv
    by_cases hk : k = a
    · subst hk
      have hne : ¬k = a' := fun he => h he.symm
      simp [getA, setA, hne]
    · by_cases hk' : k = a' <;> simp [getA, setA, hk, hk', ih, h]

lemma getA_removeA_ne (l : List (α × β)) (a a' : α) (h : a' ≠ a) :
    getA (removeA l a) a' = getA l a' := by
  induction l with
  | nil => simp [getA, removeA]
  | cons kv t ih =>
    obtain ⟨k, v⟩ := kv
    by_cases hk : k = a
    · subst hk
      have hne : ¬k = a' := fun he => h he.symm
      simp [getA, removeA, hne]
    · by_cases hk' : k = a' <;> simp [getA, removeA, hk, hk', ih, h]

lemma getA_mem (l : List (α × β)) (a : α) (b : β) (h : getA l a = some b) :
    (a, b) ∈ l := by
  induction l with
  | nil => cases h
  | cons kv t ih =>
    obtain ⟨k, v⟩ := kv
    by_cases hk : k = a
    · subst hk
      simp [getA] at h
      simp [h]
    · simp [getA, hk] at h
      exact List.mem_cons_of_mem _ (ih h)

lemma mem_getA_isSome (l : List (α × β)) (a : α) (b : β) (h : (a, b) ∈ l) :
    (getA l a).isSome = true := by
  induction l with
  | nil => cases h
  | cons kv t ih =>
    obtain ⟨k, v⟩ := kv
    rcases List.mem_cons.mp h with h1 | h1
    · cases h1
      simp [getA]
    · by_cases hk : k = a <;> simp [getA, hk, ih h1]

lemma getA_none_not_mem (l : List (α × β)) (a : α) (b : β)
    (h : getA l a = none) : (a, b) ∉ l := by
  intro hmem
  have hs := mem_getA_isSome l a b hmem
  rw [h] at hs
  cases hs

lemma mem_mapfst_setA (l : List (α × β)) (a x : α) (b : β) :
    x ∈ (setA l a b).map Prod.fst ↔ x ∈ l.map Prod.fst ∨ x = a := by
  induction l with
  | nil => simp [setA]
  | cons kv t ih =>
    obtain ⟨k, v⟩ := kv
    by_cases hk : k = a
    · subst hk
      simp [setA]
      tauto
    · simp [setA, hk, ih]
      tauto

lemma setA_mapfst_nodup (l : List (α × β)) (a : α) (b : β)
    (h : (l.map Prod.fst).Nodup) : ((setA l a b).map Prod.fst).Nodup := by
  induction l with
  | nil => simp [setA]
  | cons kv t ih =>
    obtain ⟨k, v⟩ := kv
    simp only [List.map_cons, List.nodup_cons] at h
    by_cases hk : k = a
    · subst hk
      simp [setA, List.nodup_cons, h.1, h.2]
    · simp only [setA, hk, if_false, List.map_cons, List.nodup_cons, ite_false]
      refine ⟨fun hmem => ?_, ih h.2⟩
      rcases (mem_mapfst_setA t a k b).mp hmem with h1 | h1
      · exact h.1 h1
      · exact hk h1

lemma mem_setA_elim (l : List (α × β)) (a : α) (b : β) (e : α × β)
    (h : e ∈ setA l a b) : e = (a, b) ∨ e ∈ l := by
  induction l with
  | nil => simpa [setA] using h
  | cons kv t ih =>
    obtain ⟨k, v⟩ := kv
    by_cases hk : k = a
    · subst hk
      rcases List.mem_cons.mp (by simpa [setA] using h) with h1 | h1
      · exact Or.inl h1
      · exact Or.inr (List.mem_cons_of_mem _ h1)
    · rcases List.mem_cons.mp (by simpa [setA, hk] using h) with h1 | h1
      · exact Or.inr (by simp [h1])
      · rcases ih h1 with h2 | h2
        · exact Or.inl h2
        · exact Or.inr (List.mem_cons_of_mem _ h2)

lemma mem_setA_exact (l : List (α × β)) (a : α) (b : β) (e : α × β)
    (hn : (l.map Prod.fst).Nodup) (h : e ∈ setA l a b) :
    e = (a, b) ∨ (e ∈ l ∧ e.1 ≠ a) := by
  induction l with
  | nil => simp [setA] at h; exact Or.inl h
  | cons kv t ih =>
    obtain ⟨k, v⟩ := kv
    simp only [List.map_cons, List.nodup_cons] at hn
    by_cases hk : k = a
    · subst hk
      rcases List.mem_cons.mp (by simpa [setA] using h) with h1 | h1
      · exact Or.inl h1
      · refine Or.inr ⟨List.mem_cons_of_mem _ h1, fun he => ?_⟩
        exact hn.1 (he ▸ List.mem_map_of_mem Prod.fst h1)
    · rcases List.mem_cons.mp (by simpa [setA, hk] using h) with h1 | h1
      · exact Or.inr ⟨by simp [h1], by simp [h1, hk]⟩
      · rcases ih hn.2 h1 with h2 | h2
        · exact Or.inl h2
        · exact Or.inr ⟨List.mem_cons_of_mem _ h2.1, h2.2⟩

lemma removeA_sublist (l : List (α × β)) (a : α) :
    List.Sublist (removeA l a) l := by
  induction l with
  | nil => simp [removeA]
  | cons kv t ih =>
    obtain ⟨k, v⟩ := kv
    by_cases hk : k = a
    · simp only [removeA, hk, if_true, ite_true]
      exact List.sublist_cons_of_sublist _ (List.Sublist.refl t)
    · simp only [removeA, hk, if_false, ite_false]
      exact List.Sublist.cons₂ _ ih

lemma mem_removeA_elim (l : List (α × β)) (a : α) (e : α × β)
    (h : e ∈ removeA l a) : e ∈ l :=
  (removeA_sublist l a).mem h

lemma mem_removeA_exact (l : List (α × β)) (a : α) (e : α × β)
    (hn : (l.map Prod.fst).Nodup) (h : e ∈ removeA l a) :
    e ∈ l ∧ e.1 ≠ a := by
  induction l with
  | nil => cases h
  | cons kv t ih =>
    obtain ⟨k, v⟩ := kv
    simp only [List.map_cons, List.nodup_cons] at hn
    by_cases hk : k = a
    · subst hk
      simp only [removeA, if_true, ite_true] at h
      refine ⟨List.mem_cons_of_mem _ h, fun he => ?_⟩
      exact hn.1 (he ▸ List.mem_map_of_mem Prod.fst h)
    · rcases List.mem_cons.mp (by simpa [removeA, hk] using h) with h1 | h1
      · exact ⟨by simp [h1], by simp [h1, hk]⟩
      · obtain ⟨h2, h3⟩ := ih hn.2 h1
        exact ⟨List.mem_cons_of_mem _ h2, h3⟩

lemma mem_removeA_of_ne (l : List (α × β)) (a : α) (e : α × β)
    (h : e ∈ l) (hne : e.1 ≠ a) : e ∈ removeA l a := by
  induction l with
  | nil => cases h
  | cons kv t ih =>
    obtain ⟨k, v⟩ := kv
    rcases List.mem_cons.mp h with h1 | h1
    · subst h1
      have hk : ¬k = a := hne
      simp [removeA, hk]
    · by_cases hk : k = a
      · simp [removeA, hk, h1]
      · simp only [removeA, hk, if_false, ite_false]
        exact List.mem_cons_of_mem _ (ih h1)

lemma getA_removeA_self (l : List (α × β)) (a : α)
    (hn : (l.map Prod.fst).Nodup) : getA (removeA l a) a = none := by
  cases hg : getA (removeA l a) a with
  | none => rfl
  | some b =>
    obtain ⟨_, hne⟩ := mem_removeA_exact l a (a, b) hn (getA_mem _ _ _ hg)
    exact absurd rfl hne

lemma removeA_mapfst_nodup (l : List (α × β)) (a : α)
    (h : (l.map Prod.fst).Nodup) : ((removeA l a).map Prod.fst).Nodup := by
  have hsub : List.Sublist ((removeA l a).map Prod.fst) (l.map Prod.fst) :=
    (removeA_sublist l a).map Prod.fst
  exact h.sublist hsub

lemma getA_eq_of_mem_nodup (l : List (α × β)) (a : α) (b : β)
    (hn : (l.map Prod.fst).Nodup) (hm : (a, b) ∈ l) : getA l a = some b := by
  induction l with
  | nil => cases hm
  | cons kv t ih =>
    obtain ⟨k, v⟩ := kv
    simp only [List.map_cons, List.nodup_cons] at hn
    rcases List.mem_cons.mp hm with h1 | h1
    · cases h1
      simp [getA]
    · have hk : k ≠ a := by
        intro he
        exact hn.1 (he ▸ List.mem_map_of_mem Prod.fst h1)
      simp [getA, hk, ih hn.2 h1]

/-! Claim theorem C3: channel identity is idempotent. -/

/-- Claim C3: two successive calls of Band dot channel with the same
identifier and the same owner identity return the same registered
channel object and leave the registry unchanged after the first call;
the returned reference is never empty.  External retention of the first
result between the calls is modelled by the absence of a removeChannel
step between them. -/
theorem channel_idempotent (s : Band) (i : String) (p f1 f2 : Nat) :
    ((s.channel i p f1).2.channel i p f2).1 = (s.channel i p f1).1 ∧
    ((s.channel i p f1).2.channel i p f2).2 = (s.channel i p f1).2 ∧
    ((s.channel i p f1).1).isSome = true := by
  rcases hc : s.channel i p f1 with ⟨c1, s1⟩
  have h1 : c1 = getA s1.channels (i, p) := by
    have h := congrArg Prod.fst hc
    have h2 : (s.channel i p f1).1 = getA ((s.channel i p f1).2).channels (i, p) := rfl
    rw [hc] at h2
    exact h2
  have hsome : (getA s1.channels (i, p)).isSome = true := by
    have h2 : (getA ((s.channel i p f1).2).channels (i, p)).isSome = true := by
      by_cases h : (getA s.channels (i, p)).isSome = true
      · simp [Band.channel, h]
      · simp [Band.channel, h, getA_setA_self]
    rw [hc] at h2
    exact h2
  have key_eq : s1.channel i p f2 = (getA s1.channels (i, p), s1) := by
    simp [Band.channel, hsome]
  refine ⟨?_, ?_, ?_⟩
  · show (s1.channel i p f2).1 = c1
    rw [key_eq, h1]
  · show (s1.channel i p f2).2 = s1
    rw [key_eq]
  · show c1.isSome = true
    rw [h1]
    exact hsome

/-! Claim theorem C1: Band dot send hands unflattened groups to the
dispatcher. -/

/-- Claim C1, evaluated on the code: Band dot send does not flatten the
receiver groups.  Band dot dispatch hands the group sequence straight to
the dispatcher, whose loop then invokes the first receiver group WeakSet
object as if it were a callable, raising a TypeError: the trace shows
the group object itself being invoked, and send propagates the error
instead of returning the list of receiver results. -/
theorem band_send_unflattened_raises :
    ((bandC1.send ⟨false, false⟩ (fun _ _ _ => .ok (.str "r")) "x" idNone 2 [] []).1) =
      ([Event.invoke (.wset 1 [⟨.weakFunc, .func 100, 100⟩]) [] []],
        .error .typeError) := by
  rfl

/-! Claim C2: the resolution order of receiver groups. -/

/-- Core of the unbound branch: looking up every key of the by
identifier list and skipping by object identity equals keeping every
key other than the key of the channel itself, in list order, when every
listed key is registered and the oid of the channel determines its
key. -/
lemma filterMap_skip_self (s : Band) (chan : ChannelObj)
    (hreg : getA s.channels (chan.identifier, chan.parentId) = some chan)
    (hinj : ∀ e ∈ s.channels, e.2.oid = chan.oid → e.1 = (chan.identifier, chan.parentId)) :
    ∀ l : List (String × Nat), (∀ k ∈ l, (getA s.channels k).isSome = true) →
      l.filterMap (fun key =>
        match getA s.channels key with
        | some other => if other.oid = chan.oid then none else some (other.oid, other.receivers)
        | none => none) =
      (l.filter (fun k => k ≠ (chan.identifier, chan.parentId))).map (chanGroup s) := by
  intro l
  induction l with
  | nil => intro _; rfl
  | cons k t ih =>
    intro hsome
    have hk := hsome k (List.mem_cons_self k t)
    obtain ⟨c, hc⟩ := Option.isSome_iff_exists.mp hk
    have ht := ih (fun k' hk' => hsome k' (List.mem_cons_of_mem _ hk'))
    by_cases hkey : k = (chan.identifier, chan.parentId)
    · subst hkey
      rw [hreg] at hc
      cases hc
      simp [List.filterMap_cons, List.filter_cons, hreg, ht]
    · have hne : ¬c.oid = chan.oid := by
        intro he
        exact hkey (hinj (k, c) (getA_mem _ _ _ hc) he)
      have hgroup : chanGroup s k = (c.oid, c.receivers) := by
        simp [chanGroup, hc]
      simp [List.filterMap_cons, List.filter_cons, hc, hne, hkey, ht, hgroup]

/-- Claim C2: for a registered channel, the resolved receiver group
sequence is, when the channel is bound, its own group followed by the
group of the unbound channel for the same identifier when one is
registered, and, when the channel is unbound, its own group followed by
the groups of every other registered channel with the same identifier in
channel creation order (the order of the by identifier list), skipping
itself.  Consequently, in the scenario with unbound U and bound B1 and
B2 created in that order, each with one receiver, a send on B1 returns
the results of B1 and U and a send on U returns the results of U, B1 and
B2, in those orders. -/
theorem resolution_order (s : Band) (chan : ChannelObj)
    (hreg : getA s.channels (chan.identifier, chan.parentId) = some chan)
    (hinj : ∀ e ∈ s.channels, e.2.oid = chan.oid → e.1 = (chan.identifier, chan.parentId))
    (hsome : ∀ k ∈ getD s.byIdentifier chan.identifier [], (getA s.channels k).isSome = true) :
    (chan.bound = true →
      s.getChannelReceivers chan =
        (chan.oid, chan.receivers) ::
          (match getA s.channels (chan.identifier, idNone) with
           | some anyChan => [(anyChan.oid, anyChan.receivers)]
           | none => [])) ∧
    (chan.bound = false →
      s.getChannelReceivers chan =
        (chan.oid, chan.receivers) ::
          ((getD s.byIdentifier chan.identifier []).filter
            (fun k => k ≠ (chan.identifier, chan.parentId))).map (chanGroup s)) ∧
    ((chanAt scenBand ("x", 1)).send ⟨false, false⟩ allAlive scenEval scenBand [] []).2 =
      .ok [PyVal.str "B1", PyVal.str "U"] ∧
    ((chanAt scenBand ("x", idNone)).send ⟨false, false⟩ allAlive scenEval scenBand [] []).2 =
      .ok [PyVal.str "U", PyVal.str "B1", PyVal.str "B2"] := by
  refine ⟨fun hb => ?_, fun hb => ?_, rfl, rfl⟩
  · simp [Band.getChannelReceivers, hb]
  · simp only [Band.getChannelReceivers, hb, Bool.false_eq_true, if_false, ite_false]
    rw [filterMap_skip_self s chan hreg hinj _ hsome]

/-- Witness for C2, the scenario sends: B1 reaches its own receiver then
the unbound receiver; U reaches its own receiver then the receivers of
B1 and B2 in creation order. -/
theorem resolution_order_witness :
    ((chanAt scenBand ("x", 1)).send ⟨false, false⟩ allAlive scenEval scenBand [] []).2 =
      .ok [PyVal.str "B1", PyVal.str "U"] ∧
    ((chanAt scenBand ("x", idNone)).send ⟨false, false⟩ allAlive scenEval scenBand [] []).2 =
      .ok [PyVal.str "U", PyVal.str "B1", PyVal.str "B2"] :=
  (resolution_order scenBand (chanAt scenBand ("x", idNone))
    (by decide) (by decide) (by decide)).2.2

/-! Claim C8: consistency of the three registry indices. -/

lemma getD_setA_self {β' : Type} (l : List (α × β')) (a : α) (b d : β') :
    getD (setA l a b) a d = b := by
  simp [getD, getA_setA_self]

lemma getD_setA_ne {β' : Type} (l : List (α × β')) (a a' : α) (b d : β') (h : a' ≠ a) :
    getD (setA l a b) a' d = getD l a' d := by
  simp [getD, getA_setA_ne _ _ _ _ h]

lemma getA_isSome_setA (l : List (α × β)) (a k : α) (b : β)
    (h : (getA l k).isSome = true) : (getA (setA l a b) k).isSome = true := by
  by_cases hk : k = a
  · subst hk
    simp [getA_setA_self]
  · rw [getA_setA_ne _ _ _ _ hk]
    exact h

/-- Unfolded form of the state produced by Band dot channel. -/
lemma channel_snd (s : Band) (i : String) (p oid : Nat) :
    (s.channel i p oid).2 =
      if (getA s.channels (i, p)).isSome = true then s
      else
        { channels := setA s.channels (i, p) ⟨oid, i, p, ⟨[], []⟩⟩
          byParent := setA s.byParent p (setA (getD s.byParent p []) i (i, p))
          byIdentifier := setA s.byIdentifier i (getD s.byIdentifier i [] ++ [(i, p)]) } :=
  rfl

/-- The by identifier facts of a consistent band, read through getD. -/
lemma byId_facts (s : Band) (hc : consistent s) (i : String) :
    (getD s.byIdentifier i []).Nodup ∧
    ∀ k ∈ getD s.byIdentifier i [], k.1 = i ∧ (getA s.channels k).isSome = true := by
  cases hbi : getA s.byIdentifier i with
  | none => simp [getD, hbi]
  | some ks =>
    have hm := getA_mem _ _ _ hbi
    have h := hc.2.2.2.1 (i, ks) hm
    simpa [getD, hbi] using h

/-- The by parent facts of a consistent band, read through getD. -/
lemma byParent_facts (s : Band) (hc : consistent s) (p : Nat) :
    ((getD s.byParent p []).map Prod.fst).Nodup ∧
    ∀ ik ∈ getD s.byParent p [], ik.2 = (ik.1, p) ∧ (getA s.channels ik.2).isSome = true := by
  cases hbp : getA s.byParent p with
  | none => simp [getD, hbp]
  | some m =>
    have hm := getA_mem _ _ _ hbp
    have h := hc.2.2.2.2.1 (p, m) hm
    simpa [getD, hbp] using h

lemma consistent_empty : consistent emptyBand := by
  refine ⟨?_, ?_, ?_, ?_, ?_, ?_⟩ <;> simp [emptyBand]

/-- Channel creation preserves registry consistency. -/
lemma consistent_create (s : Band) (i : String) (p oid : Nat) (hc : consistent s) :
    consistent (s.channel i p oid).2 := by
  rw [channel_snd]
  by_cases hsome : (getA s.channels (i, p)).isSome = true
  · rw [if_pos hsome]
    exact hc
  · rw [if_neg hsome]
    have hnone : getA s.channels (i, p) = none := by
      cases hg : getA s.channels (i, p) with
      | none => rfl
      | some c => rw [hg] at hsome; simp at hsome
    obtain ⟨hn1, hn2, hn3, h4, h5, h6⟩ := hc
    obtain ⟨hcurnd, hcurm⟩ := byId_facts s ⟨hn1, hn2, hn3, h4, h5, h6⟩ i
    obtain ⟨hmnd, hmm⟩ := byParent_facts s ⟨hn1, hn2, hn3, h4, h5, h6⟩ p
    have hkeycur : (i, p) ∉ getD s.byIdentifier i [] := by
      intro hk
      have hs2 := (hcurm _ hk).2
      rw [hnone] at hs2
      simp at hs2
    refine ⟨setA_mapfst_nodup _ _ _ hn1, setA_mapfst_nodup _ _ _ hn2,
      setA_mapfst_nodup _ _ _ hn3, ?_, ?_, ?_⟩
    · intro e he
      rcases mem_setA_elim _ _ _ _ he with heq | hmem
      · subst heq
        constructor
        · rw [List.nodup_append]
          refine ⟨hcurnd, List.nodup_singleton _, ?_⟩
          intro a ha hb
          rw [List.mem_singleton] at hb
          exact hkeycur (hb ▸ ha)
        · intro k hk
          rcases List.mem_append.mp hk with hk1 | hk1
          · exact ⟨(hcurm _ hk1).1, getA_isSome_setA _ _ _ _ (hcurm _ hk1).2⟩
          · rw [List.mem_singleton] at hk1
            subst hk1
            exact ⟨rfl, by rw [getA_setA_self]; rfl⟩
      · obtain ⟨hnd, hmemf⟩ := h4 e hmem
        exact ⟨hnd, fun k hk => ⟨(hmemf k hk).1, getA_isSome_setA _ _ _ _ (hmemf k hk).2⟩⟩
    · intro e he
      rcases mem_setA_elim _ _ _ _ he with heq | hmem
      · subst heq
        refine ⟨setA_mapfst_nodup _ _ _ hmnd, ?_⟩
        intro ik hik
        rcases mem_setA_elim _ _ _ _ hik with hik1 | hik1
        · subst hik1
          exact ⟨rfl, by rw [getA_setA_self]; rfl⟩
        · exact ⟨(hmm _ hik1).1, getA_isSome_setA _ _ _ _ (hmm _ hik1).2⟩
      · obtain ⟨hnd, hmemf⟩ := h5 e hmem
        exact ⟨hnd, fun ik hik => ⟨(hmemf ik hik).1, getA_isSome_setA _ _ _ _ (hmemf ik hik).2⟩⟩
    · intro e he
      rcases mem_setA_elim _ _ _ _ he with heq | hmem
      · subst heq
        constructor
        · rw [getD_setA_self]
          exact List.mem_append_right _ (List.mem_singleton_self _)
        · rw [getD_setA_self, getA_setA_self]
      · obtain ⟨hbi, hbp⟩ := h6 e hmem
        have hkey : e.1 ≠ (i, p) := by
          intro he1
          have : ((i, p), e.2) ∈ s.channels := by
            rw [← he1]
            simpa using hmem
          exact getA_none_not_mem _ _ _ hnone this
        constructor
        · by_cases hident : e.1.1 = i
          · rw [hident, getD_setA_self]
            refine List.mem_append_left _ ?_
            rw [← hident]
            exact hbi
          · rw [getD_setA_ne _ _ _ _ _ hident]
            exact hbi
        · by_cases hpar : e.1.2 = p
          · rw [hpar, getD_setA_self]
            by_cases hident : e.1.1 = i
            · exfalso
              apply hkey
              have : e.1 = (e.1.1, e.1.2) := rfl
              rw [this, hident, hpar]
            · rw [getA_setA_ne _ _ _ _ hident]
              rw [← hpar]
              exact hbp
          · rw [getD_setA_ne _ _ _ _ _ hpar]
            exact hbp

/-- Channel removal preserves registry consistency. -/
lemma consistent_remove (s : Band) (key : String × Nat) (hc : consistent s) :
    consistent (s.removeChannel key) := by
  obtain ⟨i, p⟩ := key
  obtain ⟨hn1, hn2, hn3, h4, h5, h6⟩ := hc
  obtain ⟨hcurnd, hcurm⟩ := byId_facts s ⟨hn1, hn2, hn3, h4, h5, h6⟩ i
  obtain ⟨hmnd, hmm⟩ := byParent_facts s ⟨hn1, hn2, hn3, h4, h5, h6⟩ p
  simp only [Band.removeChannel]
  refine ⟨removeA_mapfst_nodup _ _ hn1, setA_mapfst_nodup _ _ _ hn2,
    setA_mapfst_nodup _ _ _ hn3, ?_, ?_, ?_⟩
  · intro e he
    rcases mem_setA_exact _ _ _ _ hn2 he with heq | ⟨hmem, hne⟩
    · subst heq
      by_cases hkc : (i, p) ∈ getD s.byIdentifier i []
      · simp only [hkc, if_true, ite_true]
        refine ⟨hcurnd.sublist (List.erase_sublist _ _), ?_⟩
        intro k hk
        have hk2 := (hcurnd.mem_erase_iff).mp hk
        refine ⟨(hcurm _ hk2.2).1, ?_⟩
        rw [getA_removeA_ne _ _ _ hk2.1]
        exact (hcurm _ hk2.2).2
      · simp only [hkc, if_false, ite_false]
        refine ⟨hcurnd, ?_⟩
        intro k hk
        have hkne : k ≠ (i, p) := by
          intro he2
          exact hkc (he2 ▸ hk)
        refine ⟨(hcurm _ hk).1, ?_⟩
        rw [getA_removeA_ne _ _ _ hkne]
        exact (hcurm _ hk).2
    · obtain ⟨hnd, hmemf⟩ := h4 e hmem
      refine ⟨hnd, ?_⟩
      intro k hk
      have hkne : k ≠ (i, p) := by
        intro he2
        apply hne
        rw [← (hmemf k hk).1, he2]
      refine ⟨(hmemf k hk).1, ?_⟩
      rw [getA_removeA_ne _ _ _ hkne]
      exact (hmemf k hk).2
  · intro e he
    rcases mem_setA_exact _ _ _ _ hn3 he with heq | ⟨hmem, hne⟩
    · subst heq
      refine ⟨removeA_mapfst_nodup _ _ hmnd, ?_⟩
      intro ik hik
      obtain ⟨hik1, hik2⟩ := mem_removeA_exact _ _ _ hmnd hik
      refine ⟨(hmm _ hik1).1, ?_⟩
      have hkne : ik.2 ≠ (i, p) := by
        rw [(hmm _ hik1).1]
        intro he2
        exact hik2 (congrArg Prod.fst he2)
      rw [getA_removeA_ne _ _ _ hkne]
      exact (hmm _ hik1).2
    · obtain ⟨hnd, hmemf⟩ := h5 e hmem
      refine ⟨hnd, ?_⟩
      intro ik hik
      have hkne : ik.2 ≠ (i, p) := by
        rw [(hmemf ik hik).1]
        intro he2
        exact hne (congrArg Prod.snd he2)
      refine ⟨(hmemf ik hik).1, ?_⟩
      rw [getA_removeA_ne _ _ _ hkne]
      exact (hmemf ik hik).2
  · intro e he
    obtain ⟨hmem, hne⟩ := mem_removeA_exact _ _ _ hn1 he
    obtain ⟨hbi, hbp⟩ := h6 e hmem
    constructor
    · by_cases hident : e.1.1 = i
      · rw [hident, getD_setA_self]
        have hbi2 : e.1 ∈ getD s.byIdentifier i [] := by
          rw [← hident]
          exact hbi
        by_cases hkc : (i, p) ∈ getD s.byIdentifier i []
        · simp only [hkc, if_true, ite_true]
          exact (List.mem_erase_of_ne hne).mpr hbi2
        · simp only [hkc, if_false, ite_false]
          exact hbi2
      · rw [getD_setA_ne _ _ _ _ _ hident]
        exact hbi
    · by_cases hpar : e.1.2 = p
      · rw [hpar, getD_setA_self]
        by_cases hident : e.1.1 = i
        · exfalso
          apply hne
          have : e.1 = (e.1.1, e.1.2) := rfl
          rw [this, hident, hpar]
        · rw [getA_removeA_ne _ _ _ hident]
          rw [← hpar]
          exact hbp
      · rw [getD_setA_ne _ _ _ _ _ hpar]
        exact hbp

/-- Every reachable registry state is consistent. -/
lemma consistent_reachable (s : Band) (h : Reachable s) : consistent s := by
  induction h with
  | init => exact consistent_empty
  | create i p oid _ ih => exact consistent_create _ i p oid ih
  | remove key _ ih => exact consistent_remove _ key ih

/-- On a consistent registry, removal erases the key from all three
indices: from the channels dict, from every by identifier list, and from
every by parent submap. -/
lemma removed_gone (s : Band) (i : String) (p : Nat) (hc : consistent s) :
    getA (s.removeChannel (i, p)).channels (i, p) = none ∧
    (∀ e ∈ (s.removeChannel (i, p)).byIdentifier, (i, p) ∉ e.2) ∧
    (∀ e ∈ (s.removeChannel (i, p)).byParent, ∀ ik ∈ e.2, ik.2 ≠ (i, p)) := by
  obtain ⟨hn1, hn2, hn3, h4, h5, h6⟩ := hc
  obtain ⟨hcurnd, hcurm⟩ := byId_facts s ⟨hn1, hn2, hn3, h4, h5, h6⟩ i
  obtain ⟨hmnd, hmm⟩ := byParent_facts s ⟨hn1, hn2, hn3, h4, h5, h6⟩ p
  simp only [Band.removeChannel]
  refine ⟨getA_removeA_self _ _ hn1, ?_, ?_⟩
  · intro e he
    rcases mem_setA_exact _ _ _ _ hn2 he with heq | ⟨hmem, hne⟩
    · subst heq
      by_cases hkc : (i, p) ∈ getD s.byIdentifier i []
      · simp only [hkc, if_true, ite_true]
        intro hk
        exact absurd ((hcurnd.mem_erase_iff).mp hk).1 (by simp)
      · simp [hkc]
    · intro hk
      exact hne (((h4 e hmem).2 _ hk).1).symm
  · intro e he ik hik
    rcases mem_setA_exact _ _ _ _ hn3 he with heq | ⟨hmem, hne⟩
    · subst heq
      obtain ⟨hik1, hik2⟩ := mem_removeA_exact _ _ _ hmnd hik
      rw [(hmm _ hik1).1]
      intro he2
      exact hik2 (congrArg Prod.fst he2)
    · rw [((h5 e hmem).2 _ hik).1]
      intro he2
      exact hne (congrArg Prod.snd he2)

/-- Claim C8: at every state reachable by the public registry
operations, the three indices are mutually consistent (they register
exactly the same set of channel keys, with unique occurrences), and
removing a channel deletes its key from all three indices, including
every occurrence in the by identifier ordered list. -/
theorem registry_consistency (s : Band) (i : String) (p : Nat) (hs : Reachable s) :
    consistent s ∧
    getA (s.removeChannel (i, p)).channels (i, p) = none ∧
    (∀ e ∈ (s.removeChannel (i, p)).byIdentifier, (i, p) ∉ e.2) ∧
    (∀ e ∈ (s.removeChannel (i, p)).byParent, ∀ ik ∈ e.2, ik.2 ≠ (i, p)) := by
  have hc := consistent_reachable s hs
  exact ⟨hc, removed_gone s i p hc⟩

/-- Witness for C8 at a concrete reachable band holding an unbound and a
bound channel for the same identifier, removing the bound one. -/
theorem registry_consistency_witness :
    consistent ((emptyBand.channel "x" idNone 1).2.channel "x" 5 2).2 ∧
    getA ((((emptyBand.channel "x" idNone 1).2.channel "x" 5 2).2.removeChannel
      ("x", 5)).channels) ("x", 5) = none ∧
    (∀ e ∈ (((emptyBand.channel "x" idNone 1).2.channel "x" 5 2).2.removeChannel
      ("x", 5)).byIdentifier, ("x", 5) ∉ e.2) ∧
    (∀ e ∈ (((emptyBand.channel "x" idNone 1).2.channel "x" 5 2).2.removeChannel
      ("x", 5)).byParent, ∀ ik ∈ e.2, ik.2 ≠ ("x", 5)) :=
  registry_consistency ((emptyBand.channel "x" idNone 1).2.channel "x" 5 2).2 "x" 5
    (Reachable.create "x" 5 2 (Reachable.create "x" idNone 1 Reachable.init))

end Bands
